import Mathlib

/-
Verification of the airbender-cli proof-orchestration layer.

This file gives a shallow embedding of the control layer of the
airbender proving pipeline (input-word parsing, execution-engine glue,
prover orchestration, verification-key generation and proof
verification dispatch) and proves the key functional and error-handling
properties of that layer.

External collaborators (the RISC-V simulator, the JIT transpiler, the
circuit setup/proving/verification engines, the Keccak hash and the
bincode codec) are modelled as opaque function parameters gathered in
an `ExtWorld` record; file-system state is a partial map from paths to
byte lists.  Every modelled operation additionally returns the ordered
list of externally observable events (file accesses, hash/setup
computations, prover and verifier invocations) so that ordering
properties such as "fails before touching the file system" are
expressible.
-/

set_option maxRecDepth 4000

/-- Bytes are naturals below 256. -/
abbrev Byte := Fin 256

/-- Build a byte from a natural (values are always in range at use sites). -/
def byteOf (n : Nat) : Byte := ⟨n % 256, Nat.mod_lt _ (by decide)⟩

/-- Maximum value of a Rust u32. -/
def U32_MAX : Nat := 4294967295

/-- Maximum value of a Rust usize (64-bit host). -/
def USIZE_MAX : Nat := 18446744073709551615

/-- Value of a hexadecimal digit character, as in Rust char::to_digit(16). -/
def hexDigitVal (c : Char) : Option Nat :=
  if '0' ≤ c ∧ c ≤ '9' then some (c.toNat - '0'.toNat)
  else if 'a' ≤ c ∧ c ≤ 'f' then some (c.toNat - 'a'.toNat + 10)
  else if 'A' ≤ c ∧ c ≤ 'F' then some (c.toNat - 'A'.toNat + 10)
  else none

/-- Positive-accumulation loop of Rust u32::from_str_radix with radix 16:
checked multiply-and-add, failing on a non-digit or on overflow past u32. -/
def accumHex : List Char → Nat → Option Nat
  | [], acc => some acc
  | c :: rest, acc =>
    match hexDigitVal c with
    | none => none
    | some d =>
      if acc * 16 + d ≤ U32_MAX then accumHex rest (acc * 16 + d) else none

/-- Rust u32::from_str_radix(s, 16) on a list of characters.  An optional
leading sign is accepted; for the unsigned target type a "-" succeeds only
when every following digit is 0 (checked subtraction from zero), which is
the documented standard-library behaviour. -/
def fromStrRadix16 (s : List Char) : Option Nat :=
  match s with
  | [] => none
  | ['+'] => none
  | ['-'] => none
  | '+' :: rest => accumHex rest 0
  | '-' :: rest => if rest.all (fun c => c == '0') then some 0 else none
  | _ => accumHex s 0

/-- UTF-8 encoding of a single Unicode scalar value (as performed by Rust
str::as_bytes on the characters of a String). -/
def utf8Bytes (c : Char) : List Byte :=
  let n := c.toNat
  if n < 128 then [byteOf n]
  else if n < 2048 then [byteOf (192 + n / 64), byteOf (128 + n % 64)]
  else if n < 65536 then
    [byteOf (224 + n / 4096), byteOf (128 + (n / 64) % 64), byteOf (128 + n % 64)]
  else
    [byteOf (240 + n / 262144), byteOf (128 + (n / 4096) % 64),
     byteOf (128 + (n / 64) % 64), byteOf (128 + n % 64)]

/-- UTF-8 encoding of a character sequence. -/
def utf8Encode : List Char → List Byte
  | [] => []
  | c :: cs => utf8Bytes c ++ utf8Encode cs

/-- A UTF-8 continuation byte. -/
def isCont (b : Byte) : Bool := 128 ≤ b.val && b.val < 192

/-- Payload of a continuation byte. -/
def contVal (b : Byte) : Nat := b.val - 128

/-- Strict UTF-8 decoding (Rust str::from_utf8): rejects stray or missing
continuation bytes, overlong encodings, surrogates and values above
U+10FFFF. -/
def utf8Decode : List Byte → Option (List Char)
  | [] => some []
  | b :: rest =>
    if b.val < 128 then
      match utf8Decode rest with
      | some cs => some (Char.ofNat b.val :: cs)
      | none => none
    else if b.val < 194 then none
    else if b.val < 224 then
      match rest with
      | b1 :: rest2 =>
        if isCont b1 then
          match utf8Decode rest2 with
          | some cs => some (Char.ofNat ((b.val - 192) * 64 + contVal b1) :: cs)
          | none => none
        else none
      | [] => none
    else if b.val < 240 then
      match rest with
      | b1 :: b2 :: rest3 =>
        if isCont b1 && isCont b2 then
          let n := (b.val - 224) * 4096 + contVal b1 * 64 + contVal b2
          if n < 2048 then none
          else if 55296 ≤ n ∧ n < 57344 then none
          else
            match utf8Decode rest3 with
            | some cs => some (Char.ofNat n :: cs)
            | none => none
        else none
      | _ => none
    else if b.val < 245 then
      match rest with
      | b1 :: b2 :: b3 :: rest4 =>
        if isCont b1 && isCont b2 && isCont b3 then
          let n := (b.val - 240) * 262144 + contVal b1 * 4096 + contVal b2 * 64 + contVal b3
          if n < 65536 then none
          else if 1114112 ≤ n then none
          else
            match utf8Decode rest4 with
            | some cs => some (Char.ofNat n :: cs)
            | none => none
        else none
      | _ => none
    else none

/-- Rust char::is_whitespace: membership of the Unicode White_Space set. -/
def rustIsWhitespace (c : Char) : Bool :=
  ([9, 10, 11, 12, 13, 32, 133, 160, 5760,
    8192, 8193, 8194, 8195, 8196, 8197, 8198, 8199, 8200,
    8201, 8202, 8232, 8233, 8239, 8287, 12288] : List Nat).contains c.toNat

/-- Errors of parse_input_words (anyhow contexts, abstracted to a sum). -/
inductive ParseErr
  | invalidLength (n : Nat)
  | notUtf8
  | invalidWord (chunk : List Char)
deriving DecidableEq, Repr

/-- Parse one 8-byte chunk: str::from_utf8 followed by
u32::from_str_radix(_, 16). -/
def chunkWord (c : List Byte) : Option Nat :=
  match utf8Decode c with
  | none => none
  | some cs => fromStrRadix16 cs

/-- The error reported for a failing chunk: a UTF-8 error, or an invalid
hex word carrying the offending chunk text. -/
def chunkErr (c : List Byte) : ParseErr :=
  match utf8Decode c with
  | none => ParseErr.notUtf8
  | some cs => ParseErr.invalidWord cs

/-- The chunk loop of parse_input_words: hex.as_bytes().chunks(8), each
chunk decoded and parsed, stopping at the first failing chunk. -/
def parseByteChunks : List Byte → Except ParseErr (List Nat)
  | [] => Except.ok []
  | b0 :: b1 :: b2 :: b3 :: b4 :: b5 :: b6 :: b7 :: rest =>
    match chunkWord [b0, b1, b2, b3, b4, b5, b6, b7] with
    | none => Except.error (chunkErr [b0, b1, b2, b3, b4, b5, b6, b7])
    | some v =>
      match parseByteChunks rest with
      | Except.ok ws => Except.ok (v :: ws)
      | Except.error e => Except.error e
  | short =>
    match chunkWord short with
    | none => Except.error (chunkErr short)
    | some v => Except.ok [v]

/-- The whitespace-stripped, 0x-stripped hex payload of the input text
(the first two statements of parse_input_words after the file read). -/
def strippedHex (raw : List Char) : List Char :=
  let filtered := raw.filter (fun c => !(rustIsWhitespace c))
  if filtered.take 2 = ['0', 'x'] then filtered.drop 2 else filtered

/-- parse_input_words from src/input.rs, on the text content of the input
file: strip whitespace, strip one optional leading "0x", empty input is an
empty word list, otherwise the byte length must be a multiple of 8 and
each 8-byte chunk parses as one u32 with radix 16. -/
def parse_input_words (raw : List Char) : Except ParseErr (List Nat) :=
  let hex := strippedHex raw
  if hex = [] then Except.ok []
  else
    let bytes := utf8Encode hex
    if bytes.length % 8 = 0 then parseByteChunks bytes
    else Except.error (ParseErr.invalidLength bytes.length)

/-- Consecutive chunks of at most 8 elements of a byte list (as produced
by slice::chunks(8)). -/
def chunks8 : List Byte → List (List Byte)
  | [] => []
  | b0 :: b1 :: b2 :: b3 :: b4 :: b5 :: b6 :: b7 :: rest =>
    [b0, b1, b2, b3, b4, b5, b6, b7] :: chunks8 rest
  | short => [short]

example : parse_input_words "0xDEADBEEF".toList = Except.ok [3735928559] := by rfl
example : parse_input_words "".toList = Except.ok [] := by rfl
example : parse_input_words " \n ".toList = Except.ok [] := by rfl
example : parse_input_words "ABC".toList = Except.error (ParseErr.invalidLength 3) := by rfl

theorem parseByteChunks_spec (bs : List Byte) :
    parseByteChunks bs =
      match (chunks8 bs).find? (fun c => (chunkWord c).isNone) with
      | some bad => Except.error (chunkErr bad)
      | none => Except.ok ((chunks8 bs).map (fun c => (chunkWord c).getD 0)) := by
  induction bs using chunks8.induct with
  | case1 => rfl
  | case2 b0 b1 b2 b3 b4 b5 b6 b7 rest ih =>
    rw [parseByteChunks, chunks8]
    rcases h : chunkWord [b0, b1, b2, b3, b4, b5, b6, b7] with _ | v
    · simp [h]
    · rw [ih]
      rcases hf : (chunks8 rest).find? (fun c => (chunkWord c).isNone) with _ | bad
      · simp [h, hf]
      · simp [h, hf]
  | case3 short h1 h2 =>
    rw [parseByteChunks, chunks8] <;> try first | exact h1 | exact h2
    rcases h : chunkWord short with _ | v <;> simp [h]

/-- C3: parse_input_words, after removing all whitespace characters and at
most one leading "0x" prefix, returns the empty sequence when the remaining
text is empty; when the remaining length is a multiple of 8 and every
consecutive 8-character chunk is valid hexadecimal (accepted by radix-16
parsing), it returns one 32-bit word per chunk; and it fails exactly when
the remaining length is not a multiple of 8 or some chunk is not valid
hexadecimal, reporting the first offending chunk. -/
theorem parse_input_words_characterization (raw : List Char) :
    (strippedHex raw = [] → parse_input_words raw = Except.ok []) ∧
    ((utf8Encode (strippedHex raw)).length % 8 ≠ 0 →
      parse_input_words raw =
        Except.error (ParseErr.invalidLength (utf8Encode (strippedHex raw)).length)) ∧
    ((utf8Encode (strippedHex raw)).length % 8 = 0 →
      (∀ c ∈ chunks8 (utf8Encode (strippedHex raw)), (chunkWord c).isSome) →
      parse_input_words raw =
        Except.ok ((chunks8 (utf8Encode (strippedHex raw))).map
          (fun c => (chunkWord c).getD 0))) ∧
    ((utf8Encode (strippedHex raw)).length % 8 = 0 →
      ∀ bad, (chunks8 (utf8Encode (strippedHex raw))).find?
          (fun c => (chunkWord c).isNone) = some bad →
      parse_input_words raw = Except.error (chunkErr bad)) := by
  refine ⟨?_, ?_, ?_, ?_⟩
  · intro h
    simp [parse_input_words, h]
  · intro h
    have hne : strippedHex raw ≠ [] := by
      intro he
      rw [he] at h
      simp [utf8Encode] at h
    simp [parse_input_words, hne, h]
  · intro h hall
    by_cases he : strippedHex raw = []
    · rw [he]
      simp [parse_input_words, he, utf8Encode, chunks8]
    · have := parseByteChunks_spec (utf8Encode (strippedHex raw))
      rw [List.find?_eq_none.mpr (by
        intro c hc
        simp [List.mem_filter] at hc ⊢
        have := hall c hc
        simp [Option.isNone_iff_eq_none]
        intro hn
        rw [hn] at this
        simp at this)] at this
      simp [parse_input_words, he, h]
      exact this
  · intro h bad hbad
    have hne : strippedHex raw ≠ [] := by
      intro he
      rw [he] at hbad
      simp [utf8Encode, chunks8] at hbad
    have := parseByteChunks_spec (utf8Encode (strippedHex raw))
    rw [hbad] at this
    simp [parse_input_words, hne, h]
    exact this

/-- Witness for C3 at the concrete inputs given by the specification:
"0xDEADBEEF" parses to the single word 0xDEADBEEF, the empty and the
all-whitespace inputs parse to the empty sequence, "ABC" fails with a
length error. -/
theorem parse_input_words_characterization_witness :
    parse_input_words "0xDEADBEEF".toList =
      Except.ok ((chunks8 (utf8Encode (strippedHex "0xDEADBEEF".toList))).map
        (fun c => (chunkWord c).getD 0)) ∧
    parse_input_words "".toList = Except.ok [] ∧
    parse_input_words " \n ".toList = Except.ok [] ∧
    parse_input_words "ABC".toList =
      Except.error (ParseErr.invalidLength
        (utf8Encode (strippedHex "ABC".toList)).length) := by
  refine ⟨?_, ?_, ?_, ?_⟩
  · exact (parse_input_words_characterization _).2.2.1 (by decide) (by decide)
  · exact (parse_input_words_characterization _).1 (by decide)
  · exact (parse_input_words_characterization _).1 (by decide)
  · exact (parse_input_words_characterization _).2.1 (by decide)

example : (chunks8 (utf8Encode (strippedHex "0xDEADBEEF".toList))).map
    (fun c => (chunkWord c).getD 0) = [3735928559] := by decide

/-- Proof levels (execution_utils::unrolled_gpu::UnrolledProverLevel,
mirrored by cli::ProverLevel). -/
inductive Level
  | Base
  | RecursionUnrolled
  | RecursionUnified
deriving DecidableEq, Repr

/-- cli::ProverBackend. -/
inductive ProverBackend
  | Cpu
  | Gpu
deriving DecidableEq, Repr

/-- The two machine-configuration types used by the orchestration layer
(IMStandardIsaConfigWithUnsignedMulDiv and
IWithoutByteAccessIsaConfigWithDelegation). -/
inductive MachineType
  | standardWithUnsignedMulDiv
  | withoutByteAccessWithDelegation
deriving DecidableEq, Repr

/-- File paths, as character lists (the code manipulates them as UTF-8
strings; non-UTF-8 paths are rejected up front and are not modelled). -/
abbrev FPath := List Char

/-- The ".bin" suffix. -/
def binSuffix : FPath := ['.', 'b', 'i', 'n']

/-- The ".text" suffix. -/
def textSuffix : FPath := ['.', 't', 'e', 'x', 't']

/-- The ".elf" suffix. -/
def elfSuffix : FPath := ['.', 'e', 'l', 'f']

/-- Whether a path ends with ".bin". -/
def endsWithBin (p : FPath) : Bool := p.reverse.take 4 = ['n', 'i', 'b', '.']

/-- strip_bin_suffix from prover.rs / vk.rs: drop one trailing ".bin" if
present (path_str.strip_suffix(".bin")). -/
def strip_bin_suffix (p : FPath) : FPath :=
  if endsWithBin p then (p.reverse.drop 4).reverse else p

theorem strip_bin_suffix_append (p : FPath) (h : endsWithBin p = true) :
    strip_bin_suffix p ++ binSuffix = p := by
  have ht : p.reverse.take 4 = ['n', 'i', 'b', '.'] := by
    simpa [endsWithBin] using h
  have hsplit : p.reverse.take 4 ++ p.reverse.drop 4 = p.reverse :=
    List.take_append_drop _ _
  calc strip_bin_suffix p ++ binSuffix
      = (p.reverse.drop 4).reverse ++ (p.reverse.take 4).reverse := by
        rw [strip_bin_suffix, if_pos h, ht]; rfl
    _ = (p.reverse.take 4 ++ p.reverse.drop 4).reverse :=
        (List.reverse_append _ _).symm
    _ = p := by rw [hsplit, List.reverse_reverse]

/-- Split a path into the portion up to and including the last '/' and the
final component (Rust Path::file_name, for paths whose final component is
written plainly, i.e. no trailing separators). -/
def splitLastSlash : FPath → FPath × FPath
  | [] => ([], [])
  | c :: rest =>
    if c = '/' ∨ rest.contains '/' then
      ((c :: (splitLastSlash rest).1), (splitLastSlash rest).2)
    else ([], c :: rest)

/-- Split a component at its last '.': returns the part before and after
it, or none when there is no '.'. -/
def splitLastDot : FPath → Option (FPath × FPath)
  | [] => none
  | c :: rest =>
    match splitLastDot rest with
    | some (pre, suf) => some (c :: pre, suf)
    | none => if c = '.' then some ([], rest) else none

/-- Rust PathBuf::set_extension: replace the extension of the final
component (the part after its last '.', where a lone leading '.' does not
begin an extension) by the given one, appending when there is none.
Paths without a usable final component are returned unchanged. -/
def rustSetExtension (p : FPath) (ext : FPath) : FPath :=
  let dir := (splitLastSlash p).1
  let name := (splitLastSlash p).2
  if name = [] ∨ name = ['.'] ∨ name = ['.', '.'] then p
  else
    let stem :=
      match splitLastDot name with
      | none => name
      | some (pre, _) => if pre = [] then name else pre
    dir ++ stem ++ '.' :: ext

/-- derive_text_path from sim_transpiler.rs: bin_path.set_extension("text"). -/
def derive_text_path (p : FPath) : FPath := rustSetExtension p ['t', 'e', 'x', 't']

/-- derive_elf_path from sim.rs: bin_path.set_extension("elf"). -/
def derive_elf_path (p : FPath) : FPath := rustSetExtension p ['e', 'l', 'f']

example : derive_text_path "prog.bin".toList = "prog.text".toList := by decide
example : derive_text_path "dir/prog.bin".toList = "dir/prog.text".toList := by decide
example : derive_text_path "prog".toList = "prog.text".toList := by decide
example : derive_text_path "prog.dat".toList = "prog.text".toList := by decide
example : derive_elf_path "a/b.tar.bin".toList = "a/b.tar.elf".toList := by decide

/-- State returned by the JIT execution engine
(JittedCode::run_alternative_simulator), as far as the orchestration layer
observes it. -/
structure JitState where
  timestamp : Nat
  registers : List Nat
deriving DecidableEq, Repr

/-- Result of one external simulator run (Simulator::run with the two
callbacks): whether it reached the end, the final registers, and the
sequence of cycle numbers passed to the per-cycle callback. -/
structure SimRunResult where
  reachedEnd : Bool
  registers : List Nat
  cycleTrace : List Nat
deriving DecidableEq, Repr

/-- UnifiedVkFile from vk.rs: binding hash plus opaque unified setup and
layout blobs (blobs abbreviated to their identities as naturals). -/
structure UnifiedVkFile where
  app_bin_hash : List Byte
  unified_setup : Nat
  unified_layouts : Nat
deriving DecidableEq, Repr

/-- UnrolledVkFile from vk.rs: binding hash plus opaque setup and compiled
layout blobs. -/
structure UnrolledVkFile where
  app_bin_hash : List Byte
  setup : Nat
  compiled_layouts : Nat
deriving DecidableEq, Repr

/-- The external collaborators of the orchestration layer, as opaque
functions: the file system, the Keccak-256 digest, binary padding, the JIT
engine, the instruction-level simulator, external constants
(INITIAL_TIMESTAMP, TIMESTAMP_STEP, ROM_BYTE_SIZE, the embedded recursion
binaries, host parallelism), the circuit setup/layout computations, the
CPU/GPU provers, the bincode decoders and the two verification routines. -/
structure ExtWorld where
  fs : FPath → Option (List Byte)
  keccak256 : List Byte → List Byte
  padBinary : List Byte → List Byte × List Nat
  jitRun : List Nat → List Nat → List Nat → Option Nat → JitState
  initialTimestamp : Nat
  timestampStep : Nat
  simRun : FPath → List Nat → Nat → Bool → SimRunResult
  romByteSize : Nat
  availableParallelism : Option Nat
  recursionUnrolledBin : List Byte
  recursionUnrolledTxt : List Byte
  recursionUnifiedBin : List Byte
  recursionUnifiedTxt : List Byte
  computeSetup : MachineType → List Byte → List Byte → Nat
  computeLayouts : MachineType → List Nat → Nat
  computeUnifiedSetup : MachineType → List Byte → List Byte → Nat
  computeUnifiedLayouts : MachineType → List Nat → Nat
  cpuProve : List Nat → List Nat → Nat → List Nat → Nat → Nat → Nat
  gpuProve : FPath → Option Nat → Level → List Nat → Nat × Nat
  decodeProof : List Byte → Option Nat
  decodeUnifiedVk : List Byte → Option UnifiedVkFile
  decodeUnrolledVk : List Byte → Option UnrolledVkFile
  verifyUnified : Nat → Nat → Nat → Bool → Option Nat
  verifyUnrolled : Nat → Nat → Nat → Bool → Option Nat

/-- Shapes of persisted artifacts, used to tag decode events. -/
inductive ArtifactShape
  | proofArtifact
  | unifiedVkShape
  | unrolledVkShape
deriving DecidableEq, Repr

/-- Externally observable events of one orchestration-layer call, in
program order. -/
inductive Event
  | checkExists (p : FPath)
  | readFile (p : FPath)
  | writeFile (p : FPath)
  | keccakDigest
  | jitCall (textWords binWords inputWords : List Nat) (bound : Option Nat)
  | simCall (inputWords : List Nat) (bound : Nat)
  | computeSetupCall (mt : MachineType)
  | computeLayoutsCall (mt : MachineType)
  | computeUnifiedSetupCall (mt : MachineType)
  | computeUnifiedLayoutsCall (mt : MachineType)
  | cpuProveCall (cyclesBound ramBound threads : Nat)
  | gpuProveCall (base : FPath) (level : Level)
  | decodeCall (shape : ArtifactShape)
  | verifyUnifiedCall (isBaseLayer : Bool)
  | verifyUnrolledCall (isBaseLayer : Bool)
deriving DecidableEq, Repr

/-- Whether an event is an access to the file system. -/
def Event.isFilesystemAccess : Event → Bool
  | checkExists _ => true
  | readFile _ => true
  | writeFile _ => true
  | _ => false

/-- Whether an event is a cryptographic computation (a digest, or a
setup/layout computation). -/
def Event.isCryptoComputation : Event → Bool
  | keccakDigest => true
  | computeSetupCall _ => true
  | computeLayoutsCall _ => true
  | computeUnifiedSetupCall _ => true
  | computeUnifiedLayoutsCall _ => true
  | _ => false

/-- Whether an event is a circuit setup or layout computation. -/
def Event.isSetupComputation : Event → Bool
  | computeSetupCall _ => true
  | computeLayoutsCall _ => true
  | computeUnifiedSetupCall _ => true
  | computeUnifiedLayoutsCall _ => true
  | _ => false

/-- Errors of the orchestration layer (anyhow bail/context messages,
abstracted to a sum following the specification's taxonomy). -/
inductive Err
  | unsupportedCombination
  | binaryNotFound (p : FPath)
  | textNotFound (p : FPath)
  | symbolsNotFound (p : FPath)
  | notMultipleOf4 (p : FPath)
  | invalidBound
  | readFailed (p : FPath)
  | invalidLevelCombination
  | decodeFailed
  | verificationFailed
deriving DecidableEq, Repr

/-- SimulationOutcome from sim.rs. -/
structure SimulationOutcome where
  registers : List Nat
  cycles_executed : Nat
  reached_end : Bool
deriving DecidableEq, Repr

/-- DEFAULT_CYCLES from sim.rs. -/
def DEFAULT_CYCLES : Nat := 90000000000

/-- Consecutive chunks of at most 4 elements of a byte list (as produced
by slice::as_chunks::<4>, the remainder being dropped). -/
def chunks4 : List Byte → List (List Byte)
  | b0 :: b1 :: b2 :: b3 :: rest => [b0, b1, b2, b3] :: chunks4 rest
  | _ => []

/-- Little-endian u32 value of one 4-byte chunk (u32::from_le_bytes). -/
def leVal (c : List Byte) : Nat :=
  match c with
  | [b0, b1, b2, b3] => b0.val + 256 * b1.val + 65536 * b2.val + 16777216 * b3.val
  | _ => 0

/-- The word-building loop of read_u32_words: each 4-byte chunk becomes
one little-endian u32. -/
def leWords : List Byte → List Nat
  | b0 :: b1 :: b2 :: b3 :: rest =>
    (b0.val + 256 * b1.val + 65536 * b2.val + 16777216 * b3.val) :: leWords rest
  | _ => []

/-- read_u32_words from sim_transpiler.rs: read the file, require the byte
length to be a multiple of 4, and decode 4-byte little-endian words. -/
def read_u32_words (w : ExtWorld) (p : FPath) : Except Err (List Nat) :=
  match w.fs p with
  | none => Except.error (Err.readFailed p)
  | some bytes =>
    if bytes.length % 4 = 0 then Except.ok (leWords bytes)
    else Except.error (Err.notMultipleOf4 p)

/-- run_transpiler from sim_transpiler.rs: check the binary and (derived or
supplied) text paths exist, decode both files as u32 words, narrow the
cycle bound to u32 (degrading to no bound with a warning when it does not
fit), run the JIT engine, and report cycles from the timestamp delta with
reached_end always true. -/
def run_transpiler (w : ExtWorld) (bin_path : FPath) (input_words : List Nat)
    (cycles : Nat) (text_path : Option FPath) :
    Except Err SimulationOutcome × List Event :=
  if (w.fs bin_path).isNone then
    (Except.error (Err.binaryNotFound bin_path), [Event.checkExists bin_path])
  else
    let tp := text_path.getD (derive_text_path bin_path)
    if (w.fs tp).isNone then
      (Except.error (Err.textNotFound tp),
       [Event.checkExists bin_path, Event.checkExists tp])
    else
      match read_u32_words w bin_path with
      | Except.error e =>
        (Except.error e,
         [Event.checkExists bin_path, Event.checkExists tp, Event.readFile bin_path])
      | Except.ok bin_words =>
        match read_u32_words w tp with
        | Except.error e =>
          (Except.error e,
           [Event.checkExists bin_path, Event.checkExists tp,
            Event.readFile bin_path, Event.readFile tp])
        | Except.ok text_words =>
          let cycles_bound := if cycles ≤ U32_MAX then some cycles else none
          let st := w.jitRun text_words input_words bin_words cycles_bound
          let cycles_executed := (st.timestamp - w.initialTimestamp) / w.timestampStep
          (Except.ok
            { registers := st.registers,
              cycles_executed := cycles_executed,
              reached_end := true },
           [Event.checkExists bin_path, Event.checkExists tp,
            Event.readFile bin_path, Event.readFile tp,
            Event.jitCall text_words bin_words input_words cycles_bound])

/-- run_simulator from sim.rs: check the binary exists, run the simulator
(its per-cycle callback repeatedly overwrites last_cycle, initialised to
0), and report last_cycle saturating-plus-one cycles on a natural halt,
else the requested bound. -/
def run_simulator (w : ExtWorld) (bin_path : FPath) (input_words : List Nat)
    (cycles : Nat) (hasDiagnostics : Bool) :
    Except Err SimulationOutcome × List Event :=
  if (w.fs bin_path).isNone then
    (Except.error (Err.binaryNotFound bin_path), [Event.checkExists bin_path])
  else
    let r := w.simRun bin_path input_words cycles hasDiagnostics
    let last_cycle := r.cycleTrace.foldl (fun _ c => c) 0
    let cycles_executed :=
      if r.reachedEnd then Nat.min (last_cycle + 1) USIZE_MAX else cycles
    (Except.ok
      { registers := r.registers,
        cycles_executed := cycles_executed,
        reached_end := r.reachedEnd },
     [Event.checkExists bin_path, Event.simCall input_words cycles])

/-- profiler_diagnostics from sim.rs: resolve the symbol table to the
supplied ELF path or the path derived from the binary, and fail when it
does not exist. -/
def profiler_diagnostics (w : ExtWorld) (app_bin : FPath) (elf_path : Option FPath) :
    Except Err FPath × List Event :=
  let symbols_path := elf_path.getD (derive_elf_path app_bin)
  if (w.fs symbols_path).isNone then
    (Except.error (Err.symbolsNotFound symbols_path), [Event.checkExists symbols_path])
  else (Except.ok symbols_path, [Event.checkExists symbols_path])

/-- DEFAULT_RAM_BOUND_BYTES from prover.rs: 1 << 30 bytes (1 GiB). -/
def DEFAULT_RAM_BOUND_BYTES : Nat := 1073741824

/-- DEFAULT_CPU_CYCLE_BOUND from prover.rs: u32::MAX as usize. -/
def DEFAULT_CPU_CYCLE_BOUND : Nat := U32_MAX

/-- The RAM-bound step of prove_cpu (lines 110-116): default the bound to
DEFAULT_RAM_BOUND_BYTES and reject bounds below ROM_BYTE_SIZE. -/
def checkRamBound (romByteSize : Nat) (ram_bound : Option Nat) : Except Err Nat :=
  let r := ram_bound.getD DEFAULT_RAM_BOUND_BYTES
  if r < romByteSize then Except.error Err.invalidBound else Except.ok r

/-- The cycle-bound step of prove_cpu (lines 92-104): a supplied bound is
used as is; otherwise a full JIT run with the same input words and
DEFAULT_CPU_CYCLE_BOUND estimates it as that run's cycles_executed. -/
def resolveCyclesBound (w : ExtWorld) (cycles : Option Nat)
    (bin_path text_path : FPath) (input_words : List Nat) :
    Except Err Nat × List Event :=
  match cycles with
  | some v => (Except.ok v, [])
  | none =>
    match run_transpiler w bin_path input_words DEFAULT_CPU_CYCLE_BOUND (some text_path) with
    | (Except.ok outcome, tr) => (Except.ok outcome.cycles_executed, tr)
    | (Except.error e, tr) => (Except.error e, tr)

/-- prove_cpu from prover.rs: only level Base is supported (checked before
anything else); derive the .bin/.text paths from the stem, check they
exist, read and pad both, resolve the cycle bound (estimating via the
transpiler when unspecified), reject a zero bound, resolve and check the
RAM bound, default the worker count to host parallelism, and invoke the
CPU prover, writing the proof to the output path. -/
def prove_cpu (w : ExtWorld) (app_bin_path : FPath) (input_words : List Nat)
    (output : FPath) (worker_threads : Option Nat) (cycles : Option Nat)
    (ram_bound : Option Nat) (level : Level) : Except Err Unit × List Event :=
  if level ≠ Level.Base then (Except.error Err.unsupportedCombination, [])
  else
    let base_path := strip_bin_suffix app_bin_path
    let bin_path := base_path ++ binSuffix
    let text_path := base_path ++ textSuffix
    if (w.fs bin_path).isNone then
      (Except.error (Err.binaryNotFound bin_path), [Event.checkExists bin_path])
    else if (w.fs text_path).isNone then
      (Except.error (Err.textNotFound text_path),
       [Event.checkExists bin_path, Event.checkExists text_path])
    else
      let pre := [Event.checkExists bin_path, Event.checkExists text_path,
                  Event.readFile bin_path, Event.readFile text_path]
      let binary_u32 := (w.padBinary ((w.fs bin_path).getD [])).2
      let text_u32 := (w.padBinary ((w.fs text_path).getD [])).2
      match resolveCyclesBound w cycles bin_path text_path input_words with
      | (Except.error e, tr) => (Except.error e, pre ++ tr)
      | (Except.ok cycles_bound, tr) =>
        if cycles_bound = 0 then (Except.error Err.invalidBound, pre ++ tr)
        else
          match checkRamBound w.romByteSize ram_bound with
          | Except.error e => (Except.error e, pre ++ tr)
          | Except.ok ram =>
            let threads := (worker_threads.orElse (fun _ => w.availableParallelism)).getD 1
            let _proof := w.cpuProve binary_u32 text_u32 cycles_bound input_words ram threads
            (Except.ok (),
             pre ++ tr ++ [Event.cpuProveCall cycles_bound ram threads,
                           Event.writeFile output])

/-- prove_gpu from prover.rs: build the unrolled prover over the stripped
base path and prove, writing the proof to the output path. -/
def prove_gpu (w : ExtWorld) (app_bin_path : FPath) (input_words : List Nat)
    (output : FPath) (worker_threads : Option Nat) (level : Level) :
    Except Err Unit × List Event :=
  let base_path := strip_bin_suffix app_bin_path
  let _res := w.gpuProve base_path worker_threads level input_words
  (Except.ok (), [Event.gpuProveCall base_path level, Event.writeFile output])

/-- prove from prover.rs: dispatch on the backend. -/
def prove (w : ExtWorld) (app_bin_path : FPath) (input_words : List Nat)
    (output : FPath) (backend : ProverBackend) (worker_threads : Option Nat)
    (cycles : Option Nat) (ram_bound : Option Nat) (level : Level) :
    Except Err Unit × List Event :=
  match backend with
  | ProverBackend.Gpu => prove_gpu w app_bin_path input_words output worker_threads level
  | ProverBackend.Cpu =>
    prove_cpu w app_bin_path input_words output worker_threads cycles ram_bound level

/-- generate_unified_vk from vk.rs: read the user binary as supplied, hash
it with Keccak-256, compute the unified setup and layouts over the fixed
embedded unified recursion binary with the delegation machine type, and
write the UnifiedVkFile. -/
def generate_unified_vk (w : ExtWorld) (app_bin output : FPath) :
    Except Err UnifiedVkFile × List Event :=
  match w.fs app_bin with
  | none => (Except.error (Err.readFailed app_bin), [Event.readFile app_bin])
  | some app_bin_bytes =>
    let app_bin_hash := w.keccak256 app_bin_bytes
    let binPair := w.padBinary w.recursionUnifiedBin
    let textPair := w.padBinary w.recursionUnifiedTxt
    let mt := MachineType.withoutByteAccessWithDelegation
    let unified_setup := w.computeUnifiedSetup mt binPair.1 textPair.1
    let unified_layouts := w.computeUnifiedLayouts mt binPair.2
    (Except.ok
      { app_bin_hash := app_bin_hash,
        unified_setup := unified_setup,
        unified_layouts := unified_layouts },
     [Event.readFile app_bin, Event.keccakDigest,
      Event.computeUnifiedSetupCall mt, Event.computeUnifiedLayoutsCall mt,
      Event.writeFile output])

/-- generate_unrolled_vk from vk.rs: derive the .bin/.text paths from the
stem, read the user binary and hash it with Keccak-256, then select the
circuit binary (the user's own for Base, the fixed embedded unrolled
recursion binary for RecursionUnrolled, an error for RecursionUnified),
compute the setup and layouts with the matching machine type, and write
the UnrolledVkFile. -/
def generate_unrolled_vk (w : ExtWorld) (app_bin output : FPath) (level : Level) :
    Except Err UnrolledVkFile × List Event :=
  let base_path := strip_bin_suffix app_bin
  let app_bin_path := base_path ++ binSuffix
  let app_text_path := base_path ++ textSuffix
  match w.fs app_bin_path with
  | none => (Except.error (Err.readFailed app_bin_path), [Event.readFile app_bin_path])
  | some app_bin_bytes =>
    let app_bin_hash := w.keccak256 app_bin_bytes
    match level with
    | Level.RecursionUnified =>
      (Except.error Err.invalidLevelCombination,
       [Event.readFile app_bin_path, Event.keccakDigest])
    | Level.Base =>
      let binPair := w.padBinary app_bin_bytes
      match w.fs app_text_path with
      | none =>
        (Except.error (Err.readFailed app_text_path),
         [Event.readFile app_bin_path, Event.keccakDigest,
          Event.readFile app_bin_path, Event.readFile app_text_path])
      | some text_bytes =>
        let textPair := w.padBinary text_bytes
        let mt := MachineType.standardWithUnsignedMulDiv
        let setup := w.computeSetup mt binPair.1 textPair.1
        let compiled_layouts := w.computeLayouts mt binPair.2
        (Except.ok
          { app_bin_hash := app_bin_hash,
            setup := setup,
            compiled_layouts := compiled_layouts },
         [Event.readFile app_bin_path, Event.keccakDigest,
          Event.readFile app_bin_path, Event.readFile app_text_path,
          Event.computeSetupCall mt, Event.computeLayoutsCall mt,
          Event.writeFile output])
    | Level.RecursionUnrolled =>
      let binPair := w.padBinary w.recursionUnrolledBin
      let textPair := w.padBinary w.recursionUnrolledTxt
      let mt := MachineType.withoutByteAccessWithDelegation
      let setup := w.computeSetup mt binPair.1 textPair.1
      let compiled_layouts := w.computeLayouts mt binPair.2
      (Except.ok
        { app_bin_hash := app_bin_hash,
          setup := setup,
          compiled_layouts := compiled_layouts },
       [Event.readFile app_bin_path, Event.keccakDigest,
        Event.computeSetupCall mt, Event.computeLayoutsCall mt,
        Event.writeFile output])

/-- The VK file written by generate_vk: one of the two shapes. -/
inductive VkProduct
  | unified (f : UnifiedVkFile)
  | unrolled (f : UnrolledVkFile)
deriving DecidableEq, Repr

/-- The binding hash stored in a VK file of either shape. -/
def VkProduct.hash : VkProduct → List Byte
  | unified f => f.app_bin_hash
  | unrolled f => f.app_bin_hash

/-- generate_vk from vk.rs: RecursionUnified goes through the unified
generator, Base and RecursionUnrolled through the unrolled generator. -/
def generate_vk (w : ExtWorld) (app_bin output : FPath) (level : Level) :
    Except Err VkProduct × List Event :=
  match level with
  | Level.RecursionUnified =>
    match generate_unified_vk w app_bin output with
    | (Except.ok f, tr) => (Except.ok (VkProduct.unified f), tr)
    | (Except.error e, tr) => (Except.error e, tr)
  | Level.Base =>
    match generate_unrolled_vk w app_bin output Level.Base with
    | (Except.ok f, tr) => (Except.ok (VkProduct.unrolled f), tr)
    | (Except.error e, tr) => (Except.error e, tr)
  | Level.RecursionUnrolled =>
    match generate_unrolled_vk w app_bin output Level.RecursionUnrolled with
    | (Except.ok f, tr) => (Except.ok (VkProduct.unrolled f), tr)
    | (Except.error e, tr) => (Except.error e, tr)

/-- verify_proof from vk.rs: decode the proof, then dispatch on the level:
RecursionUnified decodes the VK as UnifiedVkFile and calls the
unified-layer checker with is_base_layer = false; Base and
RecursionUnrolled decode the VK as UnrolledVkFile and call the
unrolled-layer checker with is_base_layer = (level == Base). -/
def verify_proof (w : ExtWorld) (proof_path vk_path : FPath) (level : Level) :
    Except Err Nat × List Event :=
  match w.fs proof_path with
  | none => (Except.error (Err.readFailed proof_path), [Event.readFile proof_path])
  | some proof_bytes =>
    match w.decodeProof proof_bytes with
    | none =>
      (Except.error Err.decodeFailed,
       [Event.readFile proof_path, Event.decodeCall ArtifactShape.proofArtifact])
    | some proof =>
      let pre := [Event.readFile proof_path, Event.decodeCall ArtifactShape.proofArtifact]
      match level with
      | Level.RecursionUnified =>
        match w.fs vk_path with
        | none => (Except.error (Err.readFailed vk_path), pre ++ [Event.readFile vk_path])
        | some vk_bytes =>
          match w.decodeUnifiedVk vk_bytes with
          | none =>
            (Except.error Err.decodeFailed,
             pre ++ [Event.readFile vk_path, Event.decodeCall ArtifactShape.unifiedVkShape])
          | some vk_file =>
            match w.verifyUnified proof vk_file.unified_setup vk_file.unified_layouts false with
            | none =>
              (Except.error Err.verificationFailed,
               pre ++ [Event.readFile vk_path, Event.decodeCall ArtifactShape.unifiedVkShape,
                       Event.verifyUnifiedCall false])
            | some out =>
              (Except.ok out,
               pre ++ [Event.readFile vk_path, Event.decodeCall ArtifactShape.unifiedVkShape,
                       Event.verifyUnifiedCall false])
      | _ =>
        match w.fs vk_path with
        | none => (Except.error (Err.readFailed vk_path), pre ++ [Event.readFile vk_path])
        | some vk_bytes =>
          match w.decodeUnrolledVk vk_bytes with
          | none =>
            (Except.error Err.decodeFailed,
             pre ++ [Event.readFile vk_path, Event.decodeCall ArtifactShape.unrolledVkShape])
          | some vk_file =>
            let is_base_layer := decide (level = Level.Base)
            match w.verifyUnrolled proof vk_file.setup vk_file.compiled_layouts is_base_layer with
            | none =>
              (Except.error Err.verificationFailed,
               pre ++ [Event.readFile vk_path, Event.decodeCall ArtifactShape.unrolledVkShape,
                       Event.verifyUnrolledCall is_base_layer])
            | some out =>
              (Except.ok out,
               pre ++ [Event.readFile vk_path, Event.decodeCall ArtifactShape.unrolledVkShape,
                       Event.verifyUnrolledCall is_base_layer])

/-- The is_base_layer flag determined by the level alone: true exactly for
Base (the unified branch always passes false). -/
def isBaseLayerFlag : Level → Bool
  | Level.Base => true
  | Level.RecursionUnrolled => false
  | Level.RecursionUnified => false

/-- A concrete external world used to instantiate the theorems: every file
exists with a fixed 4-byte content, all collaborators return fixed
values. -/
def w0 : ExtWorld where
  fs := fun _ => some [byteOf 7, byteOf 8, byteOf 9, byteOf 10]
  keccak256 := fun b => b ++ [byteOf 255]
  padBinary := fun b => (b, [b.length])
  jitRun := fun _ _ _ _ => { timestamp := 640, registers := [3] }
  initialTimestamp := 512
  timestampStep := 2
  simRun := fun _ _ _ _ => { reachedEnd := true, registers := [5], cycleTrace := [0, 1, 2] }
  romByteSize := 1024
  availableParallelism := some 4
  recursionUnrolledBin := [byteOf 1]
  recursionUnrolledTxt := [byteOf 2]
  recursionUnifiedBin := [byteOf 3]
  recursionUnifiedTxt := [byteOf 4]
  computeSetup := fun _ _ _ => 11
  computeLayouts := fun _ _ => 12
  computeUnifiedSetup := fun _ _ _ => 13
  computeUnifiedLayouts := fun _ _ => 14
  cpuProve := fun _ _ _ _ _ _ => 21
  gpuProve := fun _ _ _ _ => (22, 23)
  decodeProof := fun _ => some 31
  decodeUnifiedVk := fun _ => some { app_bin_hash := [], unified_setup := 32, unified_layouts := 33 }
  decodeUnrolledVk := fun _ => some { app_bin_hash := [], setup := 34, compiled_layouts := 35 }
  verifyUnified := fun _ _ _ _ => some 41
  verifyUnrolled := fun _ _ _ _ => some 42

/-- Concrete path "app.bin". -/
def pApp : FPath := "app.bin".toList

/-- Concrete path "out.bin". -/
def pOut : FPath := "out.bin".toList

/-- Concrete path "proof.bin". -/
def pProof : FPath := "proof.bin".toList

/-- Concrete path "vk.bin". -/
def pVk : FPath := "vk.bin".toList

/-- C1: verify_proof decodes the VK as UnifiedVkFile and invokes the
unified-layer checker with is_base_layer = false exactly when the level is
RecursionUnified, and decodes the VK as UnrolledVkFile and invokes the
unrolled-layer checker with is_base_layer = (level == Base) exactly when
the level is Base or RecursionUnrolled; every is_base_layer flag passed to
a checker equals a function of the level alone. -/
theorem verify_proof_dispatch (w : ExtWorld) (proof_path vk_path : FPath) (level : Level) :
    (∀ b, Event.verifyUnifiedCall b ∈ (verify_proof w proof_path vk_path level).2 →
      level = Level.RecursionUnified ∧ b = false) ∧
    (∀ b, Event.verifyUnrolledCall b ∈ (verify_proof w proof_path vk_path level).2 →
      (level = Level.Base ∨ level = Level.RecursionUnrolled) ∧
      b = decide (level = Level.Base)) ∧
    (Event.decodeCall ArtifactShape.unifiedVkShape ∈ (verify_proof w proof_path vk_path level).2 →
      level = Level.RecursionUnified) ∧
    (Event.decodeCall ArtifactShape.unrolledVkShape ∈ (verify_proof w proof_path vk_path level).2 →
      level = Level.Base ∨ level = Level.RecursionUnrolled) ∧
    (∀ b, (Event.verifyUnifiedCall b ∈ (verify_proof w proof_path vk_path level).2 ∨
           Event.verifyUnrolledCall b ∈ (verify_proof w proof_path vk_path level).2) →
      b = isBaseLayerFlag level) ∧
    (∀ out, (verify_proof w proof_path vk_path level).1 = Except.ok out →
      (if level = Level.RecursionUnified then
        Event.decodeCall ArtifactShape.unifiedVkShape ∈ (verify_proof w proof_path vk_path level).2 ∧
        Event.verifyUnifiedCall false ∈ (verify_proof w proof_path vk_path level).2
       else
        Event.decodeCall ArtifactShape.unrolledVkShape ∈ (verify_proof w proof_path vk_path level).2 ∧
        Event.verifyUnrolledCall (decide (level = Level.Base)) ∈ (verify_proof w proof_path vk_path level).2)) := by
  cases level <;>
  · rcases hp : w.fs proof_path with _ | pb
    · simp [verify_proof, hp]
    · rcases hd : w.decodeProof pb with _ | prf
      · simp [verify_proof, hp, hd]
      · rcases hv : w.fs vk_path with _ | vb
        · simp [verify_proof, hp, hd, hv]
        · first
          | (rcases hu : w.decodeUnifiedVk vb with _ | vkf
             · simp [verify_proof, hp, hd, hv, hu]
             · rcases hr : w.verifyUnified prf vkf.unified_setup vkf.unified_layouts false with _ | out <;>
                 simp [verify_proof, hp, hd, hv, hu, hr, isBaseLayerFlag])
          | (rcases hu : w.decodeUnrolledVk vb with _ | vkf
             · simp [verify_proof, hp, hd, hv, hu]
             · rcases hr : w.verifyUnrolled prf vkf.setup vkf.compiled_layouts true with _ | out <;>
                 simp [verify_proof, hp, hd, hv, hu, hr, isBaseLayerFlag])
          | (rcases hu : w.decodeUnrolledVk vb with _ | vkf
             · simp [verify_proof, hp, hd, hv, hu]
             · rcases hr : w.verifyUnrolled prf vkf.setup vkf.compiled_layouts false with _ | out <;>
                 simp [verify_proof, hp, hd, hv, hu, hr, isBaseLayerFlag])

/-- Witness for C1: in the concrete world, verifying at level Base invokes
the unrolled-layer checker with is_base_layer = true. -/
theorem verify_proof_dispatch_witness :
    Event.verifyUnrolledCall true ∈ (verify_proof w0 pProof pVk Level.Base).2 := by
  have h := (verify_proof_dispatch w0 pProof pVk Level.Base).2.2.2.2.2 42 (by rfl)
  have h2 : Event.decodeCall ArtifactShape.unrolledVkShape ∈ (verify_proof w0 pProof pVk Level.Base).2 ∧
      Event.verifyUnrolledCall (decide (Level.Base = Level.Base)) ∈ (verify_proof w0 pProof pVk Level.Base).2 := by
    simpa using h
  simpa using h2.2

/-- C2: requesting the CPU backend with a recursion level fails with
UnsupportedCombination and produces no events at all — in particular no
file-system access of any kind. -/
theorem prove_cpu_recursion_unsupported (w : ExtWorld) (app_bin_path : FPath)
    (input_words : List Nat) (output : FPath) (worker_threads cycles ram_bound : Option Nat)
    (level : Level) (h : level = Level.RecursionUnrolled ∨ level = Level.RecursionUnified) :
    (prove w app_bin_path input_words output ProverBackend.Cpu worker_threads cycles ram_bound level).1
      = Except.error Err.unsupportedCombination ∧
    (prove w app_bin_path input_words output ProverBackend.Cpu worker_threads cycles ram_bound level).2
      = [] := by
  rcases h with h | h <;> subst h <;> exact ⟨rfl, rfl⟩

/-- Witness for C2 at a concrete invocation. -/
theorem prove_cpu_recursion_unsupported_witness :
    (Level.RecursionUnrolled = Level.RecursionUnrolled ∨
      Level.RecursionUnrolled = Level.RecursionUnified) ∧
    ((prove w0 pApp [1] pOut ProverBackend.Cpu none none none Level.RecursionUnrolled).1
        = Except.error Err.unsupportedCombination ∧
     (prove w0 pApp [1] pOut ProverBackend.Cpu none none none Level.RecursionUnrolled).2 = []) :=
  ⟨Or.inl rfl,
   prove_cpu_recursion_unsupported w0 pApp [1] pOut none none none
     Level.RecursionUnrolled (Or.inl rfl)⟩

theorem run_transpiler_no_prove_events (w : ExtWorld) (bin_path : FPath)
    (input_words : List Nat) (cycles : Nat) (text_path : Option FPath) :
    ∀ c r t, Event.cpuProveCall c r t ∉ (run_transpiler w bin_path input_words cycles text_path).2 := by
  intro c r t
  rcases hb : w.fs bin_path with _ | bb
  · simp [run_transpiler, hb]
  · rcases ht : w.fs (text_path.getD (derive_text_path bin_path)) with _ | tb
    · simp [run_transpiler, hb, ht]
    · by_cases h4 : bb.length % 4 = 0
      · by_cases h4t : tb.length % 4 = 0
        · simp [run_transpiler, read_u32_words, hb, ht, h4, h4t]
        · simp [run_transpiler, read_u32_words, hb, ht, h4, h4t]
      · simp [run_transpiler, read_u32_words, hb, ht, h4]

/-- C4: in CPU proving at level Base with no explicit cycle bound, the
orchestrator first performs a full JIT run (via the transpiler, with the
same input words and the default u32::MAX bound) and uses that run's
cycles_executed as the bound; a final bound of zero — supplied or
estimated — is rejected with InvalidBound and the prover is never
invoked. -/
theorem prove_cpu_cycle_estimation (w : ExtWorld) (app_bin_path : FPath)
    (input_words : List Nat) (output : FPath) (worker_threads ram_bound : Option Nat)
    (bb tb : List Byte)
    (hbin : w.fs (strip_bin_suffix app_bin_path ++ binSuffix) = some bb)
    (htext : w.fs (strip_bin_suffix app_bin_path ++ textSuffix) = some tb) :
    (∀ outcome tr,
      run_transpiler w (strip_bin_suffix app_bin_path ++ binSuffix) input_words
          DEFAULT_CPU_CYCLE_BOUND (some (strip_bin_suffix app_bin_path ++ textSuffix))
        = (Except.ok outcome, tr) →
      (∃ rest,
        (prove_cpu w app_bin_path input_words output worker_threads none ram_bound Level.Base).2
          = [Event.checkExists (strip_bin_suffix app_bin_path ++ binSuffix),
             Event.checkExists (strip_bin_suffix app_bin_path ++ textSuffix),
             Event.readFile (strip_bin_suffix app_bin_path ++ binSuffix),
             Event.readFile (strip_bin_suffix app_bin_path ++ textSuffix)] ++ tr ++ rest) ∧
      (∀ c r t, Event.cpuProveCall c r t ∈
          (prove_cpu w app_bin_path input_words output worker_threads none ram_bound Level.Base).2 →
        c = outcome.cycles_executed)) ∧
    ((prove_cpu w app_bin_path input_words output worker_threads (some 0) ram_bound Level.Base).1
        = Except.error Err.invalidBound ∧
      ∀ c r t, Event.cpuProveCall c r t ∉
        (prove_cpu w app_bin_path input_words output worker_threads (some 0) ram_bound Level.Base).2) ∧
    (∀ outcome tr,
      run_transpiler w (strip_bin_suffix app_bin_path ++ binSuffix) input_words
          DEFAULT_CPU_CYCLE_BOUND (some (strip_bin_suffix app_bin_path ++ textSuffix))
        = (Except.ok outcome, tr) →
      outcome.cycles_executed = 0 →
      (prove_cpu w app_bin_path input_words output worker_threads none ram_bound Level.Base).1
        = Except.error Err.invalidBound ∧
      ∀ c r t, Event.cpuProveCall c r t ∉
        (prove_cpu w app_bin_path input_words output worker_threads none ram_bound Level.Base).2) := by
  refine ⟨?_, ?_, ?_⟩
  · intro outcome tr htr
    have hnp : ∀ c r t, Event.cpuProveCall c r t ∉ tr := by
      intro c r t
      have h := run_transpiler_no_prove_events w (strip_bin_suffix app_bin_path ++ binSuffix)
        input_words DEFAULT_CPU_CYCLE_BOUND
        (some (strip_bin_suffix app_bin_path ++ textSuffix)) c r t
      rw [htr] at h
      simpa using h
    by_cases hz : outcome.cycles_executed = 0
    · constructor
      · refine ⟨[], ?_⟩
        simp [prove_cpu, hbin, htext, resolveCyclesBound, htr, hz]
      · intro c r t hmem
        simp [prove_cpu, hbin, htext, resolveCyclesBound, htr, hz] at hmem
        exact absurd hmem (hnp c r t)
    · rcases hram : checkRamBound w.romByteSize ram_bound with e | rv
      · constructor
        · refine ⟨[], ?_⟩
          simp [prove_cpu, hbin, htext, resolveCyclesBound, htr, hz, hram]
        · intro c r t hmem
          simp [prove_cpu, hbin, htext, resolveCyclesBound, htr, hz, hram] at hmem
          exact absurd hmem (hnp c r t)
      · constructor
        · refine ⟨[Event.cpuProveCall outcome.cycles_executed rv
              ((worker_threads.orElse (fun _ => w.availableParallelism)).getD 1),
              Event.writeFile output], ?_⟩
          simp [prove_cpu, hbin, htext, resolveCyclesBound, htr, hz, hram]
        · intro c r t hmem
          simp [prove_cpu, hbin, htext, resolveCyclesBound, htr, hz, hram] at hmem
          rcases hmem with h | h
          · exact absurd h (hnp c r t)
          · exact h.1
  · constructor
    · simp [prove_cpu, hbin, htext, resolveCyclesBound]
    · intro c r t hmem
      simp [prove_cpu, hbin, htext, resolveCyclesBound] at hmem
  · intro outcome tr htr hz
    have hnp : ∀ c r t, Event.cpuProveCall c r t ∉ tr := by
      intro c r t
      have h := run_transpiler_no_prove_events w (strip_bin_suffix app_bin_path ++ binSuffix)
        input_words DEFAULT_CPU_CYCLE_BOUND
        (some (strip_bin_suffix app_bin_path ++ textSuffix)) c r t
      rw [htr] at h
      simpa using h
    constructor
    · simp [prove_cpu, hbin, htext, resolveCyclesBound, htr, hz]
    · intro c r t hmem
      simp [prove_cpu, hbin, htext, resolveCyclesBound, htr, hz] at hmem
      exact absurd hmem (hnp c r t)

/-- Witness for C4 in the concrete world: without a cycle bound the JIT
estimation run appears at the head of the prover trace, and a supplied
zero bound is rejected. -/
theorem prove_cpu_cycle_estimation_witness :
    (∃ rest,
      (prove_cpu w0 pApp [1] pOut none none none Level.Base).2
        = [Event.checkExists (strip_bin_suffix pApp ++ binSuffix),
           Event.checkExists (strip_bin_suffix pApp ++ textSuffix),
           Event.readFile (strip_bin_suffix pApp ++ binSuffix),
           Event.readFile (strip_bin_suffix pApp ++ textSuffix)] ++
          [Event.checkExists (strip_bin_suffix pApp ++ binSuffix),
           Event.checkExists (strip_bin_suffix pApp ++ textSuffix),
           Event.readFile (strip_bin_suffix pApp ++ binSuffix),
           Event.readFile (strip_bin_suffix pApp ++ textSuffix),
           Event.jitCall [168364039] [168364039] [1] (some 4294967295)] ++ rest) ∧
    (prove_cpu w0 pApp [1] pOut none (some 0) none Level.Base).1
      = Except.error Err.invalidBound := by
  have h := prove_cpu_cycle_estimation w0 pApp [1] pOut none none
    [byteOf 7, byteOf 8, byteOf 9, byteOf 10] [byteOf 7, byteOf 8, byteOf 9, byteOf 10] rfl rfl
  refine ⟨?_, h.2.1.1⟩
  exact (h.1 { registers := [3], cycles_executed := 64, reached_end := true }
    [Event.checkExists (strip_bin_suffix pApp ++ binSuffix),
     Event.checkExists (strip_bin_suffix pApp ++ textSuffix),
     Event.readFile (strip_bin_suffix pApp ++ binSuffix),
     Event.readFile (strip_bin_suffix pApp ++ textSuffix),
     Event.jitCall [168364039] [168364039] [1] (some 4294967295)] rfl).1

/-- C5: in CPU proving, an unspecified RAM bound behaves exactly as if
2^30 bytes had been supplied; a supplied or defaulted bound is accepted
if and only if it is at least ROM_BYTE_SIZE — equality accepted, one byte
below rejected with InvalidBound — and on rejection the prover is never
invoked. -/
theorem prove_cpu_ram_bound (w : ExtWorld) (app_bin_path : FPath)
    (input_words : List Nat) (output : FPath) (worker_threads : Option Nat)
    (c : Nat) (ram_bound : Option Nat) (bb tb : List Byte) (hc : c ≠ 0)
    (hbin : w.fs (strip_bin_suffix app_bin_path ++ binSuffix) = some bb)
    (htext : w.fs (strip_bin_suffix app_bin_path ++ textSuffix) = some tb) :
    (checkRamBound w.romByteSize none
      = checkRamBound w.romByteSize (some DEFAULT_RAM_BOUND_BYTES)) ∧
    (∀ r, checkRamBound w.romByteSize (some r) = Except.ok r ↔ w.romByteSize ≤ r) ∧
    (checkRamBound w.romByteSize (some w.romByteSize) = Except.ok w.romByteSize) ∧
    (0 < w.romByteSize →
      checkRamBound w.romByteSize (some (w.romByteSize - 1))
        = Except.error Err.invalidBound) ∧
    (∀ r, checkRamBound w.romByteSize ram_bound = Except.ok r →
      (prove_cpu w app_bin_path input_words output worker_threads (some c) ram_bound Level.Base).1
        = Except.ok () ∧
      Event.cpuProveCall c r ((worker_threads.orElse (fun _ => w.availableParallelism)).getD 1)
        ∈ (prove_cpu w app_bin_path input_words output worker_threads (some c) ram_bound Level.Base).2) ∧
    (∀ e, checkRamBound w.romByteSize ram_bound = Except.error e →
      (prove_cpu w app_bin_path input_words output worker_threads (some c) ram_bound Level.Base).1
        = Except.error e ∧
      ∀ a b2 t, Event.cpuProveCall a b2 t ∉
        (prove_cpu w app_bin_path input_words output worker_threads (some c) ram_bound Level.Base).2) := by
  refine ⟨rfl, ?_, ?_, ?_, ?_, ?_⟩
  · intro r
    by_cases hr : r < w.romByteSize
    · simp [checkRamBound, hr]
    · simp [checkRamBound, hr]
      omega
  · simp [checkRamBound]
  · intro h
    simp [checkRamBound, Nat.sub_lt h Nat.one_pos]
  · intro r hram
    constructor
    · simp [prove_cpu, hbin, htext, resolveCyclesBound, hc, hram]
    · simp [prove_cpu, hbin, htext, resolveCyclesBound, hc, hram]
  · intro e hram
    constructor
    · simp [prove_cpu, hbin, htext, resolveCyclesBound, hc, hram]
    · intro a b2 t hmem
      simp [prove_cpu, hbin, htext, resolveCyclesBound, hc, hram] at hmem

/-- Witness for C5 in the concrete world (ROM_BYTE_SIZE = 1024): the bound
equal to the ROM size is accepted and the prover invoked with it, one byte
below is rejected. -/
theorem prove_cpu_ram_bound_witness :
    checkRamBound w0.romByteSize (some w0.romByteSize) = Except.ok w0.romByteSize ∧
    checkRamBound w0.romByteSize (some (w0.romByteSize - 1))
      = Except.error Err.invalidBound ∧
    ((prove_cpu w0 pApp [1] pOut none (some 5) (some 1024) Level.Base).1 = Except.ok () ∧
     Event.cpuProveCall 5 1024 4
       ∈ (prove_cpu w0 pApp [1] pOut none (some 5) (some 1024) Level.Base).2) := by
  have h := prove_cpu_ram_bound w0 pApp [1] pOut none 5 (some 1024)
    [byteOf 7, byteOf 8, byteOf 9, byteOf 10] [byteOf 7, byteOf 8, byteOf 9, byteOf 10]
    (by decide) rfl rfl
  refine ⟨h.2.2.1, h.2.2.2.1 (by decide), ?_⟩
  have h5 := h.2.2.2.2.1 1024 (by rfl)
  exact ⟨h5.1, h5.2⟩

/-- The unified VK file produced by generate_vk in the concrete world. -/
def vkU0 : UnifiedVkFile where
  app_bin_hash := w0.keccak256 [byteOf 7, byteOf 8, byteOf 9, byteOf 10]
  unified_setup := 13
  unified_layouts := 14

/-- The unrolled VK file produced by generate_vk in the concrete world. -/
def vkR0 : UnrolledVkFile where
  app_bin_hash := w0.keccak256 [byteOf 7, byteOf 8, byteOf 9, byteOf 10]
  setup := 11
  compiled_layouts := 12

/-- C6 counterexample: generating through the unrolled path at level
RecursionUnified does fail with InvalidLevelCombination, but only after a
cryptographic computation (the Keccak digest of the user binary) has
already been performed — refuting "before any cryptographic
computation". -/
theorem generate_vk_unified_via_unrolled_counterexample :
    (generate_unrolled_vk w0 pApp pOut Level.RecursionUnified).1
      = Except.error Err.invalidLevelCombination ∧
    ¬ (∀ ev ∈ (generate_unrolled_vk w0 pApp pOut Level.RecursionUnified).2,
        ev.isCryptoComputation = false) :=
  ⟨rfl, by decide⟩

/-- C6 (amended): requesting a unified VK through the unrolled-generation
path always fails — with InvalidLevelCombination whenever the binary is
readable — before any circuit setup or layout computation (though after
the binary has been read and its Keccak digest computed); the
unified-generation path takes no level and so cannot produce an unrolled
VK; and generate_vk produces a UnifiedVkFile exactly at RecursionUnified
and an UnrolledVkFile exactly at Base or RecursionUnrolled. -/
theorem generate_vk_level_dispatch (w : ExtWorld) (app_bin output : FPath) (level : Level) :
    ((generate_unrolled_vk w app_bin output Level.RecursionUnified).1
        = Except.error Err.invalidLevelCombination ∨
      (generate_unrolled_vk w app_bin output Level.RecursionUnified).1
        = Except.error (Err.readFailed (strip_bin_suffix app_bin ++ binSuffix))) ∧
    (∀ bytes, w.fs (strip_bin_suffix app_bin ++ binSuffix) = some bytes →
      (generate_unrolled_vk w app_bin output Level.RecursionUnified).1
        = Except.error Err.invalidLevelCombination) ∧
    (∀ ev ∈ (generate_unrolled_vk w app_bin output Level.RecursionUnified).2,
      ev.isSetupComputation = false) ∧
    (∀ prod, (generate_vk w app_bin output level).1 = Except.ok prod →
      ((level = Level.RecursionUnified ↔ ∃ f, prod = VkProduct.unified f) ∧
       ((level = Level.Base ∨ level = Level.RecursionUnrolled) ↔
         ∃ f, prod = VkProduct.unrolled f))) := by
  refine ⟨?_, ?_, ?_, ?_⟩
  · rcases hb : w.fs (strip_bin_suffix app_bin ++ binSuffix) with _ | bytes
    · right
      simp [generate_unrolled_vk, hb]
    · left
      simp [generate_unrolled_vk, hb]
  · intro bytes hb
    simp [generate_unrolled_vk, hb]
  · intro ev hmem
    rcases hb : w.fs (strip_bin_suffix app_bin ++ binSuffix) with _ | bytes
    · simp [generate_unrolled_vk, hb] at hmem
      subst hmem
      rfl
    · simp [generate_unrolled_vk, hb] at hmem
      rcases hmem with rfl | rfl <;> rfl
  · intro prod hp
    cases level
    case Base =>
      rcases hg : generate_unrolled_vk w app_bin output Level.Base with ⟨res, tr⟩
      cases res with
      | error e =>
        rw [generate_vk, hg] at hp
        simp at hp
      | ok f =>
        rw [generate_vk, hg] at hp
        simp at hp
        subst hp
        constructor
        · simp
        · simp
    case RecursionUnrolled =>
      rcases hg : generate_unrolled_vk w app_bin output Level.RecursionUnrolled with ⟨res, tr⟩
      cases res with
      | error e =>
        rw [generate_vk, hg] at hp
        simp at hp
      | ok f =>
        rw [generate_vk, hg] at hp
        simp at hp
        subst hp
        constructor
        · simp
        · simp
    case RecursionUnified =>
      rcases hg : generate_unified_vk w app_bin output with ⟨res, tr⟩
      cases res with
      | error e =>
        rw [generate_vk, hg] at hp
        simp at hp
      | ok f =>
        rw [generate_vk, hg] at hp
        simp at hp
        subst hp
        constructor
        · simp
        · simp

/-- Witness for C6 (amended) in the concrete world: the unrolled path at
RecursionUnified fails with InvalidLevelCombination, and generate_vk at
RecursionUnified produces a unified VK file. -/
theorem generate_vk_level_dispatch_witness :
    (generate_unrolled_vk w0 pVk pOut Level.RecursionUnified).1
      = Except.error Err.invalidLevelCombination ∧
    ((Level.RecursionUnified = Level.RecursionUnified ↔
       ∃ f, VkProduct.unified vkU0 = VkProduct.unified f) ∧
     ((Level.RecursionUnified = Level.Base ∨ Level.RecursionUnified = Level.RecursionUnrolled) ↔
       ∃ f, VkProduct.unified vkU0 = VkProduct.unrolled f)) := by
  have h := generate_vk_level_dispatch w0 pVk pOut Level.RecursionUnified
  exact ⟨h.2.1 [byteOf 7, byteOf 8, byteOf 9, byteOf 10] rfl,
         h.2.2.2 (VkProduct.unified vkU0) rfl⟩

/-- C7: for every level, the VK file produced by generate_vk stores an
app_bin_hash equal to the Keccak-256 digest of the bytes of the
user-supplied program binary (the file named by the caller's path
argument, here ending in ".bin"), even at the recursion levels, where the
setup is computed over the fixed embedded recursion binaries instead. -/
theorem generate_vk_hash_binding (w : ExtWorld) (app_bin output : FPath) (level : Level)
    (hsuffix : endsWithBin app_bin = true) :
    ∀ prod, (generate_vk w app_bin output level).1 = Except.ok prod →
      (∃ bytes, w.fs app_bin = some bytes ∧ prod.hash = w.keccak256 bytes) ∧
      (level = Level.RecursionUnrolled →
        ∃ f, prod = VkProduct.unrolled f ∧
          f.setup = w.computeSetup MachineType.withoutByteAccessWithDelegation
            (w.padBinary w.recursionUnrolledBin).1 (w.padBinary w.recursionUnrolledTxt).1) ∧
      (level = Level.RecursionUnified →
        ∃ f, prod = VkProduct.unified f ∧
          f.unified_setup = w.computeUnifiedSetup MachineType.withoutByteAccessWithDelegation
            (w.padBinary w.recursionUnifiedBin).1 (w.padBinary w.recursionUnifiedTxt).1) := by
  intro prod hp
  have hpath : strip_bin_suffix app_bin ++ binSuffix = app_bin :=
    strip_bin_suffix_append app_bin hsuffix
  cases level
  case RecursionUnified =>
    rcases hb : w.fs app_bin with _ | bytes
    · rw [generate_vk] at hp
      simp [generate_unified_vk, hb] at hp
    · rw [generate_vk] at hp
      simp [generate_unified_vk, hb] at hp
      subst hp
      refine ⟨⟨bytes, rfl, rfl⟩, by simp, ?_⟩
      intro _
      exact ⟨_, rfl, rfl⟩
  case Base =>
    rcases hb : w.fs app_bin with _ | bytes
    · rw [generate_vk] at hp
      rw [generate_unrolled_vk] at hp
      rw [hpath, hb] at hp
      simp at hp
    · rcases ht : w.fs (strip_bin_suffix app_bin ++ textSuffix) with _ | tbytes
      · rw [generate_vk] at hp
        rw [generate_unrolled_vk] at hp
        rw [hpath, hb] at hp
        simp [ht] at hp
      · rw [generate_vk] at hp
        rw [generate_unrolled_vk] at hp
        rw [hpath, hb] at hp
        simp [ht] at hp
        subst hp
        exact ⟨⟨bytes, rfl, rfl⟩, by simp, by simp⟩
  case RecursionUnrolled =>
    rcases hb : w.fs app_bin with _ | bytes
    · rw [generate_vk] at hp
      rw [generate_unrolled_vk] at hp
      rw [hpath, hb] at hp
      simp at hp
    · rw [generate_vk] at hp
      rw [generate_unrolled_vk] at hp
      rw [hpath, hb] at hp
      simp at hp
      subst hp
      refine ⟨⟨bytes, rfl, rfl⟩, ?_, by simp⟩
      intro _
      exact ⟨_, rfl, rfl⟩

/-- Witness for C7 in the concrete world at level RecursionUnrolled: the
hash stored in the VK equals the Keccak digest of the user binary even
though the setup was computed from the embedded recursion binary. -/
theorem generate_vk_hash_binding_witness :
    (∃ bytes, w0.fs pApp = some bytes ∧
      (VkProduct.unrolled vkR0).hash = w0.keccak256 bytes) := by
  have h := generate_vk_hash_binding w0 pApp pOut Level.RecursionUnrolled (by decide)
    (VkProduct.unrolled vkR0) rfl
  exact h.1

theorem splitLastSlash_no_slash (p : FPath) (h : p.contains '/' = false) :
    splitLastSlash p = ([], p) := by
  cases p with
  | nil => rfl
  | cons c rest =>
    have hc : ¬ (c = '/' ∨ rest.contains '/') := by
      simp [List.contains_cons] at h
      simp [h.1, h.2]
      intro hcc
      exact h.1 hcc.symm
    rw [splitLastSlash, if_neg hc]

theorem splitLastDot_none (ys : FPath) (h : ys.contains '.' = false) :
    splitLastDot ys = none := by
  induction ys with
  | nil => rfl
  | cons c rest ih =>
    simp [List.contains_cons] at h
    rw [splitLastDot, ih (by simp [h.2]), if_neg (by intro hc; exact h.1 hc.symm)]

theorem splitLastDot_append (xs ys : FPath) (h : ys.contains '.' = false) :
    splitLastDot (xs ++ '.' :: ys) = some (xs, ys) := by
  induction xs with
  | nil =>
    rw [List.nil_append, splitLastDot, splitLastDot_none ys h, if_pos rfl]
  | cons c xs' ih =>
    rw [List.cons_append, splitLastDot, ih]

theorem setExtension_stem (stem ext : FPath)
    (hslash : (stem ++ binSuffix).contains '/' = false) (hne : stem ≠ []) :
    rustSetExtension (stem ++ binSuffix) ext = stem ++ '.' :: ext := by
  have hss : splitLastSlash (stem ++ binSuffix) = ([], stem ++ binSuffix) :=
    splitLastSlash_no_slash _ hslash
  have hsd : splitLastDot (stem ++ binSuffix) = some (stem, ['b', 'i', 'n']) :=
    splitLastDot_append stem _ (by decide)
  have h0 : ¬ (stem ++ binSuffix = []) := by
    intro h
    have := congrArg List.length h
    simp [binSuffix] at this
  have h1 : ¬ (stem ++ binSuffix = ['.']) := by
    intro h
    have := congrArg List.length h
    simp [binSuffix] at this
  have h2 : ¬ (stem ++ binSuffix = ['.', '.']) := by
    intro h
    have := congrArg List.length h
    simp [binSuffix] at this
  simp only [rustSetExtension, hss, hsd]
  simp [h0, h1, h2, hne]

/-- C8 counterexample: for the path "prog.dat" the default text and ELF
artifact paths are obtained by replacing the final extension, not by
appending to the ".bin"-stripped stem as the claim states. -/
theorem path_convention_counterexample :
    derive_text_path "prog.dat".toList ≠ strip_bin_suffix "prog.dat".toList ++ textSuffix ∧
    derive_elf_path "prog.dat".toList ≠ strip_bin_suffix "prog.dat".toList ++ elfSuffix := by
  decide

/-- C8 (amended): the CPU prover and the unrolled VK generator derive the
binary and instruction-text paths by the stem convention (strip one
trailing ".bin", then append ".bin"/".text"); the transpiler runner uses
the supplied binary path as given and derives the default text artifact by
replacing the path's final extension with "text" (set_extension), and
profiling-symbol resolution likewise replaces the final extension with
"elf"; for slash-free paths ending in ".bin" (other than ".bin" itself)
the replacement agrees with the stem convention. -/
theorem path_convention (w : ExtWorld) (p : FPath) (input_words : List Nat)
    (output : FPath) (wt c rb : Option Nat) (n : Nat) :
    ((w.fs (strip_bin_suffix p ++ binSuffix)).isNone →
      prove_cpu w p input_words output wt c rb Level.Base
        = (Except.error (Err.binaryNotFound (strip_bin_suffix p ++ binSuffix)),
           [Event.checkExists (strip_bin_suffix p ++ binSuffix)])) ∧
    (¬ (w.fs (strip_bin_suffix p ++ binSuffix)).isNone →
      (w.fs (strip_bin_suffix p ++ textSuffix)).isNone →
      prove_cpu w p input_words output wt c rb Level.Base
        = (Except.error (Err.textNotFound (strip_bin_suffix p ++ textSuffix)),
           [Event.checkExists (strip_bin_suffix p ++ binSuffix),
            Event.checkExists (strip_bin_suffix p ++ textSuffix)])) ∧
    ((generate_unrolled_vk w p output Level.Base).2.head?
        = some (Event.readFile (strip_bin_suffix p ++ binSuffix))) ∧
    ((w.fs p).isNone →
      (run_transpiler w p input_words n none).2 = [Event.checkExists p]) ∧
    (¬ (w.fs p).isNone →
      (run_transpiler w p input_words n none).2.take 2
        = [Event.checkExists p, Event.checkExists (derive_text_path p)]) ∧
    ((profiler_diagnostics w p none).2 = [Event.checkExists (derive_elf_path p)]) ∧
    (p.contains '/' = false → endsWithBin p = true → p ≠ binSuffix →
      derive_text_path p = strip_bin_suffix p ++ textSuffix ∧
      derive_elf_path p = strip_bin_suffix p ++ elfSuffix) := by
  refine ⟨?_, ?_, ?_, ?_, ?_, ?_, ?_⟩
  · intro hb
    simp [prove_cpu, Option.isNone_iff_eq_none.mp hb]
  · intro hb ht
    rcases hq : w.fs (strip_bin_suffix p ++ binSuffix) with _ | bb
    · rw [hq] at hb
      simp at hb
    · simp [prove_cpu, hq, Option.isNone_iff_eq_none.mp ht]
  · rcases hb : w.fs (strip_bin_suffix p ++ binSuffix) with _ | bytes
    · simp [generate_unrolled_vk, hb]
    · rcases ht : w.fs (strip_bin_suffix p ++ textSuffix) with _ | tb <;>
        simp [generate_unrolled_vk, hb, ht]
  · intro hb
    simp [run_transpiler, Option.isNone_iff_eq_none.mp hb]
  · intro hb
    rcases hq : w.fs p with _ | bb
    · rw [hq] at hb
      simp at hb
    · rcases ht : w.fs (derive_text_path p) with _ | tb
      · simp [run_transpiler, hq, ht]
      · by_cases h4 : bb.length % 4 = 0
        · by_cases h4t : tb.length % 4 = 0 <;>
            simp [run_transpiler, read_u32_words, hq, ht, h4, h4t]
        · simp [run_transpiler, read_u32_words, hq, ht, h4]
  · rcases he : w.fs (derive_elf_path p) with _ | eb <;>
      simp [profiler_diagnostics, he]
  · intro hslash hbin hne
    have hstem : strip_bin_suffix p ++ binSuffix = p := strip_bin_suffix_append p hbin
    have hne' : strip_bin_suffix p ≠ [] := by
      intro h
      apply hne
      rw [← hstem, h, List.nil_append]
    have hsl : (strip_bin_suffix p ++ binSuffix).contains '/' = false := by
      rw [hstem]; exact hslash
    constructor
    · have := setExtension_stem (strip_bin_suffix p) ['t', 'e', 'x', 't'] hsl hne'
      rw [hstem] at this
      exact this
    · have := setExtension_stem (strip_bin_suffix p) ['e', 'l', 'f'] hsl hne'
      rw [hstem] at this
      exact this

/-- Witness for C8 (amended) at the concrete path "app.bin": the text and
ELF replacements agree with the stem convention, and a missing binary is
reported at the stem-derived ".bin" path. -/
theorem path_convention_witness :
    (derive_text_path pApp = strip_bin_suffix pApp ++ textSuffix ∧
     derive_elf_path pApp = strip_bin_suffix pApp ++ elfSuffix) ∧
    (profiler_diagnostics w0 pApp none).2 = [Event.checkExists (derive_elf_path pApp)] := by
  have h := path_convention w0 pApp [1] pOut none none none 5
  exact ⟨h.2.2.2.2.2.2 (by decide) (by decide) (by decide), h.2.2.2.2.2.1⟩

/-- C9: a simulated run that reaches the end reports the last completed
cycle plus one (saturating at usize), otherwise the requested bound; a JIT
run reports the timestamp delta from INITIAL_TIMESTAMP divided by
TIMESTAMP_STEP, and always reports reached_end = true. -/
theorem cycles_executed_reporting (w : ExtWorld) (bin_path : FPath)
    (input_words : List Nat) (cycles : Nat) (hasDiag : Bool) (text_path : Option FPath) :
    (∀ outcome tr,
      run_simulator w bin_path input_words cycles hasDiag = (Except.ok outcome, tr) →
      outcome.reached_end = (w.simRun bin_path input_words cycles hasDiag).reachedEnd ∧
      ((w.simRun bin_path input_words cycles hasDiag).reachedEnd = true →
        (w.simRun bin_path input_words cycles hasDiag).cycleTrace.foldl (fun _ c => c) 0 + 1
            ≤ USIZE_MAX →
        outcome.cycles_executed
          = (w.simRun bin_path input_words cycles hasDiag).cycleTrace.foldl (fun _ c => c) 0 + 1) ∧
      ((w.simRun bin_path input_words cycles hasDiag).reachedEnd = false →
        outcome.cycles_executed = cycles)) ∧
    (∀ outcome tr,
      run_transpiler w bin_path input_words cycles text_path = (Except.ok outcome, tr) →
      outcome.reached_end = true ∧
      (∀ tw bw iw b, Event.jitCall tw bw iw b ∈ tr →
        outcome.cycles_executed
          = ((w.jitRun tw iw bw b).timestamp - w.initialTimestamp) / w.timestampStep)) := by
  constructor
  · intro outcome tr heq
    rcases hb : w.fs bin_path with _ | bb
    · simp [run_simulator, hb] at heq
    · simp [run_simulator, hb] at heq
      rcases heq with ⟨heq, -⟩
      subst heq
      refine ⟨rfl, ?_, ?_⟩
      · intro hre hle
        simp [hre, Nat.min_eq_left hle]
      · intro hre
        simp [hre]
  · intro outcome tr heq
    rcases hb : w.fs bin_path with _ | bb
    · simp [run_transpiler, hb] at heq
    · rcases ht : w.fs (text_path.getD (derive_text_path bin_path)) with _ | tb
      · simp [run_transpiler, hb, ht] at heq
      · by_cases h4 : bb.length % 4 = 0
        · by_cases h4t : tb.length % 4 = 0
          · simp [run_transpiler, read_u32_words, hb, ht, h4, h4t] at heq
            rcases heq with ⟨heq, htr⟩
            subst heq
            subst htr
            refine ⟨rfl, ?_⟩
            intro tw bw iw b hmem
            simp at hmem
            rcases hmem with ⟨h1, h2, h3, h4⟩
            subst h1
            subst h2
            subst h3
            subst h4
            rfl
          · simp [run_transpiler, read_u32_words, hb, ht, h4, h4t] at heq
        · simp [run_transpiler, read_u32_words, hb, ht, h4] at heq

theorem leWords_eq_chunks4 : ∀ bs : List Byte, leWords bs = (chunks4 bs).map leVal := by
  intro bs
  induction bs using chunks4.induct with
  | case1 b0 b1 b2 b3 rest ih =>
    rw [leWords, chunks4]
    simp [leVal, ih]
  | case2 short h =>
    rw [leWords, chunks4] <;> try exact h
    simp

/-- C10: the JIT path fails with an error whenever the binary's or the
text artifact's byte length is not a multiple of 4, even when both files
exist — and therefore so does CPU-prover cycle estimation; word decoding
interprets each 4-byte chunk as a little-endian u32. -/
theorem transpiler_word_length (w : ExtWorld) (bin_path : FPath)
    (input_words : List Nat) (cycles : Nat) (text_path : Option FPath)
    (bb tb : List Byte)
    (hbin : w.fs bin_path = some bb)
    (htext : w.fs (text_path.getD (derive_text_path bin_path)) = some tb) :
    (bb.length % 4 ≠ 0 →
      (run_transpiler w bin_path input_words cycles text_path).1
        = Except.error (Err.notMultipleOf4 bin_path)) ∧
    (bb.length % 4 = 0 → tb.length % 4 ≠ 0 →
      (run_transpiler w bin_path input_words cycles text_path).1
        = Except.error (Err.notMultipleOf4 (text_path.getD (derive_text_path bin_path)))) ∧
    (∀ bs : List Byte, leWords bs = (chunks4 bs).map leVal) ∧
    (∀ app_bin_path output wt rb (bb2 tb2 : List Byte),
      w.fs (strip_bin_suffix app_bin_path ++ binSuffix) = some bb2 →
      w.fs (strip_bin_suffix app_bin_path ++ textSuffix) = some tb2 →
      bb2.length % 4 ≠ 0 →
      (prove_cpu w app_bin_path input_words output wt none rb Level.Base).1
        = Except.error (Err.notMultipleOf4 (strip_bin_suffix app_bin_path ++ binSuffix))) := by
  refine ⟨?_, ?_, leWords_eq_chunks4, ?_⟩
  · intro h4
    simp [run_transpiler, read_u32_words, hbin, htext, h4]
  · intro h4 h4t
    simp [run_transpiler, read_u32_words, hbin, htext, h4, h4t]
  · intro app_bin_path output wt rb bb2 tb2 hb2 ht2 h42
    have hrt : run_transpiler w (strip_bin_suffix app_bin_path ++ binSuffix) input_words
        DEFAULT_CPU_CYCLE_BOUND (some (strip_bin_suffix app_bin_path ++ textSuffix))
        = (Except.error (Err.notMultipleOf4 (strip_bin_suffix app_bin_path ++ binSuffix)),
           [Event.checkExists (strip_bin_suffix app_bin_path ++ binSuffix),
            Event.checkExists (strip_bin_suffix app_bin_path ++ textSuffix),
            Event.readFile (strip_bin_suffix app_bin_path ++ binSuffix)]) := by
      simp [run_transpiler, read_u32_words, hb2, ht2, h42]
    simp [prove_cpu, hb2, ht2, resolveCyclesBound, hrt]

/-- A concrete external world whose files all hold a single byte, so every
file length is 1, not a multiple of 4. -/
def w1 : ExtWorld := { w0 with fs := fun _ => some [byteOf 1] }

/-- Witness for C10: in a world with 1-byte files the transpiler run and
the CPU-prover estimation both fail with the length error, and an 8-byte
sequence decodes to the two expected little-endian words. -/
theorem transpiler_word_length_witness :
    (run_transpiler w1 pApp [1] 5 none).1 = Except.error (Err.notMultipleOf4 pApp) ∧
    leWords [byteOf 1, byteOf 0, byteOf 0, byteOf 0, byteOf 2, byteOf 0, byteOf 0, byteOf 0]
      = (chunks4 [byteOf 1, byteOf 0, byteOf 0, byteOf 0,
                  byteOf 2, byteOf 0, byteOf 0, byteOf 0]).map leVal ∧
    (prove_cpu w1 pApp [1] pOut none none none Level.Base).1
      = Except.error (Err.notMultipleOf4 (strip_bin_suffix pApp ++ binSuffix)) := by
  have h := transpiler_word_length w1 pApp [1] 5 none [byteOf 1] [byteOf 1] rfl rfl
  exact ⟨h.1 (by decide), h.2.2.1 _,
         h.2.2.2 pApp pOut none none [byteOf 1] [byteOf 1] rfl rfl (by decide)⟩

/-- Witness for C9 in the concrete world: the simulated run reports last
cycle 2 plus one, and the JIT run reports (640 - 512) / 2 = 64 cycles with
reached_end = true. -/
theorem cycles_executed_reporting_witness :
    (({ registers := [5], cycles_executed := 3, reached_end := true }
        : SimulationOutcome).cycles_executed
      = (w0.simRun pApp [1] 100 false).cycleTrace.foldl (fun _ c => c) 0 + 1) ∧
    (({ registers := [3], cycles_executed := 64, reached_end := true }
        : SimulationOutcome).reached_end = true) ∧
    (({ registers := [3], cycles_executed := 64, reached_end := true }
        : SimulationOutcome).cycles_executed
      = ((w0.jitRun [168364039] [1] [168364039] (some 100)).timestamp
          - w0.initialTimestamp) / w0.timestampStep) := by
  have h := cycles_executed_reporting w0 pApp [1] 100 false none
  have h2 := h.2 { registers := [3], cycles_executed := 64, reached_end := true }
    [Event.checkExists pApp, Event.checkExists (derive_text_path pApp),
     Event.readFile pApp, Event.readFile (derive_text_path pApp),
     Event.jitCall [168364039] [168364039] [1] (some 100)] rfl
  refine ⟨?_, h2.1, ?_⟩
  · exact (h.1 { registers := [5], cycles_executed := 3, reached_end := true }
      [Event.checkExists pApp, Event.simCall [1] 100] rfl).2.1 rfl (by decide)
  · exact h2.2 [168364039] [168364039] [1] (some 100) (by decide)
